import Mathlib

set_option allowUnsafeReducibility true in
attribute [semireducible] Rat.add Rat.sub Rat.mul Rat.inv Rat.div

/-!
Shallow embedding of the moving-average-crossover backtesting engine
(`src/trading/strategy.py` and `src/trading/backtester.py`).

Prices and money amounts are modelled as rationals (the Python code uses
floats; every claim under study is about exact arithmetic identities, counts
and control flow, none about rounding).  A pandas cell that would hold NaN is
modelled as `Option` (`none` = NaN); `dropna` drops the rows whose modelled
cells are `none`.  A Python exception is modelled as the `none` branch of an
`Option` result (or the `Except.error` branch where the spec speaks of
raised errors).
-/

namespace Trading

/-- Python `int(q)` on a float: truncation toward zero. -/
def pyInt (q : ℚ) : ℤ := if 0 ≤ q then ⌊q⌋ else ⌈q⌉

/-- One retained row of the signal frame built by
`MovingAverageCrossoverStrategy.generate_signals`: the passthrough close,
the two rolling means `MA_short`/`MA_long`, the 0/1 `signal` column and the
`position` column (`signal.diff()`). -/
structure SignalRow where
  close : ℚ
  short_ma : ℚ
  long_ma : ℚ
  signal : ℚ
  position : ℚ
  deriving DecidableEq, Repr

/-- Cell `i` of `signals['close'].rolling(window=w).mean()`: the trailing
mean of the `w` closes ending at index `i`, NaN (`none`) while fewer than
`w` observations exist.  (pandas requires `w ≥ 1`.) -/
def maAt (w : ℕ) (xs : List ℚ) (i : ℕ) : Option ℚ :=
  if w ≤ i + 1 ∧ i < xs.length then
    some (((xs.take (i + 1)).drop (i + 1 - w)).sum / (w : ℚ))
  else none

/-- Cell `i` of the `signal` column: `np.where(MA_short > MA_long, 1.0, 0.0)`.
A comparison against NaN is false in numpy, so any row whose moving average
is still undefined gets signal `0`. -/
def signalAt (prices : List ℚ) (sw lw : ℕ) (i : ℕ) : ℚ :=
  match maAt sw prices i, maAt lw prices i with
  | some s, some l => if s > l then 1 else 0
  | _, _ => 0

/-- Cell `i` of the `position` column: `signals['signal'].diff()`, NaN at
index 0. -/
def positionAt (prices : List ℚ) (sw lw : ℕ) (i : ℕ) : Option ℚ :=
  if i = 0 then none
  else some (signalAt prices sw lw i - signalAt prices sw lw (i - 1))

/-- Row `i` of the signal frame before `dropna`: `none` when any of its
modelled cells (either moving average, or `position`) is NaN, in which case
`dropna` removes the row.  (`close` and `signal` are never NaN.) -/
def rowAt (prices : List ℚ) (sw lw : ℕ) (i : ℕ) : Option SignalRow :=
  match maAt sw prices i, maAt lw prices i, positionAt prices sw lw i with
  | some s, some l, some p =>
      some ⟨prices.getD i 0, s, l, signalAt prices sw lw i, p⟩
  | _, _, _ => none

/-- `MovingAverageCrossoverStrategy.generate_signals` on a frame that has a
`close` column: computes both rolling means, the `signal` and `position`
columns, then `dropna`. -/
def generateSignals (prices : List ℚ) (sw lw : ℕ) : List SignalRow :=
  (List.range prices.length).filterMap (rowAt prices sw lw)

/-- One row of the portfolio frame: the signal row it was derived from plus
the `holdings`, `cash`, `total` and `returns` columns filled in by the
simulation loop. -/
structure PortfolioRow where
  sig : SignalRow
  holdings : ℚ
  cash : ℚ
  total : ℚ
  returns : ℚ
  deriving DecidableEq, Repr

/-- The state the simulation loops carry from one row to the next: the
share count `position`, the previous row's `cash` cell, and the previous
row's `total` cell (`none` before the first row, where the code leaves the
initialised `returns = 0.0` untouched). -/
structure SimState where
  shares : ℤ
  cash : ℚ
  prevTotal : Option ℚ
  deriving DecidableEq, Repr

/-- Shared tail of one loop iteration: given the updated `(shares, cash)`
pair, fill in `holdings = shares * close`, `total = holdings + cash` and
`returns = total / prev_total - 1` (0 on the first row). -/
def finishStep (st : SimState) (r : SignalRow) (su : ℤ × ℚ) :
    SimState × PortfolioRow :=
  let holdings := (su.1 : ℚ) * r.close
  let total := holdings + su.2
  let ret := match st.prevTotal with
    | none => 0
    | some pt => total / pt - 1
  (⟨su.1, su.2, some total⟩, ⟨r, holdings, su.2, total, ret⟩)

/-- One iteration of `Backtester._simulate_trades`: on `position == 1` buy
`int(prev_cash / price)` shares; on `position == -1` with shares held sell
everything; otherwise hold. -/
def simStep (st : SimState) (r : SignalRow) : SimState × PortfolioRow :=
  let price := r.close
  let su : ℤ × ℚ :=
    if r.position = 1 then
      let n := pyInt (st.cash / price)
      (st.shares + n, st.cash - (n : ℚ) * price)
    else if r.position = -1 ∧ 0 < st.shares then
      (0, st.cash + (st.shares : ℚ) * price)
    else
      (st.shares, st.cash)
  finishStep st r su

/-- The row loop of `Backtester._simulate_trades`. -/
def simAux (st : SimState) : List SignalRow → List PortfolioRow
  | [] => []
  | r :: rs => (simStep st r).2 :: simAux (simStep st r).1 rs

/-- `(1 + returns).cumprod() - 1`, with `acc` the running product so far. -/
def cumFrom (acc : ℚ) : List ℚ → List ℚ
  | [] => []
  | r :: rs => (acc * (1 + r) - 1) :: cumFrom (acc * (1 + r)) rs

/-- `Backtester._initialize_portfolio` followed by
`Backtester._simulate_trades`: the portfolio rows and the
`cumulative_returns` column. -/
def simulateTrades (rows : List SignalRow) (cap : ℚ) :
    List PortfolioRow × List ℚ :=
  let pf := simAux ⟨0, cap, none⟩ rows
  (pf, cumFrom 1 (pf.map PortfolioRow.returns))

/-- One iteration of the loop inside
`MovingAverageCrossoverStrategy.backtest`.  Unlike `simStep`, the buy and
sell branches read `portfolio['cash'].iloc[i]` — the not-yet-updated cell of
the current row, which still holds the initialised value `initial_capital` —
and the sell branch has no `position > 0` guard.  The buy uses float floor
division `//`. -/
def stratStep (cap : ℚ) (st : SimState) (r : SignalRow) :
    SimState × PortfolioRow :=
  let price := r.close
  let su : ℤ × ℚ :=
    if r.position = 1 then
      let n := ⌊cap / price⌋
      (st.shares + n, cap - (n : ℚ) * price)
    else if r.position = -1 then
      (0, cap + (st.shares : ℚ) * price)
    else
      (st.shares, st.cash)
  finishStep st r su

/-- The row loop of `MovingAverageCrossoverStrategy.backtest`. -/
def stratAux (cap : ℚ) (st : SimState) : List SignalRow → List PortfolioRow
  | [] => []
  | r :: rs => (stratStep cap st r).2 :: stratAux cap (stratStep cap st r).1 rs

/-- The portfolio part of `MovingAverageCrossoverStrategy.backtest`, run on
an already generated signal frame. -/
def strategyBacktest (rows : List SignalRow) (cap : ℚ) :
    List PortfolioRow × List ℚ :=
  let pf := stratAux cap ⟨0, cap, none⟩ rows
  (pf, cumFrom 1 (pf.map PortfolioRow.returns))

/-- Count of signal rows whose `position` is `+1`. -/
def countBuySignals (rows : List SignalRow) : ℕ :=
  (rows.filter (fun r => decide (r.position = 1))).length

/-- Count of signal rows whose `position` is `-1`. -/
def countSellSignals (rows : List SignalRow) : ℕ :=
  (rows.filter (fun r => decide (r.position = -1))).length

/-- `(portfolio['position'] == 1.0).sum()` in `_calculate_metrics`. -/
def countBuyRows (pf : List PortfolioRow) : ℕ :=
  (pf.filter (fun pr => decide (pr.sig.position = 1))).length

/-- `(portfolio['position'] == -1.0).sum()` in `_calculate_metrics`. -/
def countSellRows (pf : List PortfolioRow) : ℕ :=
  (pf.filter (fun pr => decide (pr.sig.position = -1))).length

/-- Sample variance with `ddof = 1`, the square of pandas `Series.std()`
when at least two observations exist. -/
def sampleVar (l : List ℚ) : ℚ :=
  ((l.map (fun x => (x - l.sum / (l.length : ℚ)) ^ 2)).sum) /
    ((l.length : ℚ) - 1)

/-- The square of pandas `Series.std()` (`ddof = 1`): NaN (`none`) when
fewer than two observations exist. -/
def stdSqOpt (l : List ℚ) : Option ℚ :=
  if l.length < 2 then none else some (sampleVar l)

/-- Multiply a squared daily volatility by 252: the square of
`std * np.sqrt(252)`. -/
def annualizeSq (o : Option ℚ) : Option ℚ := o.map (fun v => v * 252)

/-- The metrics of `Backtester._calculate_metrics` that the claims under
study are about.  `start_date`/`end_date` are index accesses
(`portfolio.index[0]`, `portfolio.index[-1]`) that raise `IndexError` on an
empty portfolio — modelled by the `none` branch.  `annual_return`,
`sharpe_ratio` and `max_drawdown` involve real-valued powers and square
roots and are not referenced by any claim; the annualised volatility is
modelled through its square (`volatilitySq` = `volatility ** 2` =
`std(returns) ** 2 * 252`) to stay inside ℚ, `none` standing for the NaN
that `std()` yields on fewer than two observations. -/
structure Metrics where
  initialValue : ℚ
  finalValue : ℚ
  totalReturn : ℚ
  volatilitySq : Option ℚ
  buySignals : ℕ
  sellSignals : ℕ
  numTrades : ℕ
  deriving DecidableEq, Repr

/-- `Backtester._calculate_metrics`.  On an empty portfolio the very first
statement `portfolio.index[0]` raises `IndexError`, modelled as `none`.
Note `portfolio['returns'].dropna()` drops nothing: the `returns` column is
initialised to `0.0` and never NaN. -/
def calculateMetrics : List PortfolioRow → List ℚ → ℚ → Option Metrics
  | [], _, _ => none
  | p :: ps, cum, cap => some
    { initialValue := cap
      finalValue := ((p :: ps).map PortfolioRow.total).getLastD 0
      totalReturn := cum.getLastD 0
      volatilitySq := annualizeSq (stdSqOpt ((p :: ps).map PortfolioRow.returns))
      buySignals := countBuyRows (p :: ps)
      sellSignals := countSellRows (p :: ps)
      numTrades := countBuyRows (p :: ps) + countSellRows (p :: ps) }

/-- The dictionary `Backtester.run` returns: the portfolio frame (with its
`cumulative_returns` column) and the metrics. -/
structure SimResult where
  portfolio : List PortfolioRow
  cumulative : List ℚ
  metrics : Metrics
  deriving DecidableEq, Repr

/-- `Backtester.run`: generate signals, initialise the portfolio, simulate
trades, compute metrics.  `none` models the exception escaping from
`_calculate_metrics` when the portfolio is empty. -/
def runBacktest (prices : List ℚ) (sw lw : ℕ) (cap : ℚ) : Option SimResult :=
  let signals := generateSignals prices sw lw
  let pc := simulateTrades signals cap
  (calculateMetrics pc.1 pc.2 cap).map (fun m => ⟨pc.1, pc.2, m⟩)

/-- The `volatilitySq` field of a completed run. -/
def runVolatilitySq (prices : List ℚ) (sw lw : ℕ) (cap : ℚ) :
    Option (Option ℚ) :=
  (runBacktest prices sw lw cap).map (fun r => r.metrics.volatilitySq)

/-- The `returns` column of a completed run. -/
def runReturns (prices : List ℚ) (sw lw : ℕ) (cap : ℚ) : Option (List ℚ) :=
  (runBacktest prices sw lw cap).map
    (fun r => r.portfolio.map PortfolioRow.returns)

/-- The last `total` cell of a portfolio frame. -/
def lastTotal (pf : List PortfolioRow) : ℚ :=
  (pf.map PortfolioRow.total).getLastD 0

/-- The stored configuration of `MovingAverageCrossoverStrategy.__init__`. -/
structure StrategyCfg where
  short_window : ℤ
  long_window : ℤ
  deriving DecidableEq, Repr

/-- `MovingAverageCrossoverStrategy.__init__`: stores the two windows.  The
`Except` result records whether construction can raise; the body performs no
validation, so it always returns `ok`. -/
def mkStrategy (sw lw : ℤ) : Except String StrategyCfg := .ok ⟨sw, lw⟩

/-- The stored capital of `Backtester.__init__` (the `strategy` and `data`
fields are held untouched and play no part in validation). -/
structure BacktesterCfg where
  initial_capital : ℚ
  deriving DecidableEq, Repr

/-- `Backtester.__init__`: stores its arguments.  The body performs no
validation, so it always returns `ok`. -/
def mkBacktester (cap : ℚ) : Except String BacktesterCfg := .ok ⟨cap⟩

/-- The input frame as far as `generate_signals` inspects it: whether a
`close` column and/or a `price` column is present. -/
structure Frame where
  close : Option (List ℚ)
  price : Option (List ℚ)
  deriving DecidableEq, Repr

/-- What `generate_signals` returns: either a frame with signal columns, or
the copied input unchanged (the missing-column path, which only logs). -/
inductive GenOut where
  | signals (rows : List SignalRow)
  | unchanged (df : Frame)
  deriving DecidableEq, Repr

/-- `MovingAverageCrossoverStrategy.generate_signals` including its column
check: with no `close` column it falls back to `price`; with neither it logs
an error and returns the copied frame unchanged — no exception is raised, so
the result is always `ok`. -/
def generateSignalsFrame (df : Frame) (sw lw : ℕ) : Except String GenOut :=
  match df.close with
  | some c => .ok (.signals (generateSignals c sw lw))
  | none =>
    match df.price with
    | some p => .ok (.signals (generateSignals p sw lw))
    | none => .ok (.unchanged df)

/-- Written from the words of the specification, for comparison with the
code: the square of `stdev(daily_returns excluding the first day
placeholder) * sqrt(252)`, with volatility 0 whenever fewer than 2 return
observations remain after the exclusion. -/
def specVolatilitySq (rets : List ℚ) : ℚ :=
  if (rets.drop 1).length < 2 then 0 else sampleVar (rets.drop 1) * 252

/-- The concrete `SimResult` of running the backtest on prices
`[1, 1, 2, 3]` with windows 1/2 and capital 1000 (hand-traced: one buy of
500 shares at price 2, then a hold while the price rises to 3). -/
def smallRunResult : SimResult :=
  ⟨[⟨⟨1, 1, 1, 0, 0⟩, 0, 1000, 1000, 0⟩,
    ⟨⟨2, 2, 3 / 2, 1, 1⟩, 1000, 0, 1000, 0⟩,
    ⟨⟨3, 3, 5 / 2, 1, 0⟩, 1500, 0, 1500, 1 / 2⟩],
   [0, 0, 1 / 2],
   ⟨1000, 1500, 1 / 2, some 21, 1, 0, 1⟩⟩

/-! Helper lemmas about the embedding. -/

theorem pyInt_of_nonneg {q : ℚ} (h : 0 ≤ q) : pyInt q = ⌊q⌋ := if_pos h

theorem pyInt_nonneg {q : ℚ} (h : 0 ≤ q) : 0 ≤ pyInt q := by
  rw [pyInt_of_nonneg h]
  exact Int.floor_nonneg.mpr h

theorem pyInt_mul_le {c p : ℚ} (hc : 0 ≤ c) (hp : 0 < p) :
    (pyInt (c / p) : ℚ) * p ≤ c := by
  rw [pyInt_of_nonneg (div_nonneg hc hp.le)]
  calc ((⌊c / p⌋ : ℤ) : ℚ) * p ≤ (c / p) * p :=
        mul_le_mul_of_nonneg_right (Int.floor_le _) hp.le
    _ = c := div_mul_cancel₀ _ hp.ne'

theorem finishStep_shares (st : SimState) (r : SignalRow) (su : ℤ × ℚ) :
    (finishStep st r su).1.shares = su.1 := rfl

theorem finishStep_cash (st : SimState) (r : SignalRow) (su : ℤ × ℚ) :
    (finishStep st r su).1.cash = su.2 := rfl

theorem finishStep_row_fields (st : SimState) (r : SignalRow) (su : ℤ × ℚ) :
    (finishStep st r su).2.holdings = (su.1 : ℚ) * r.close ∧
    (finishStep st r su).2.cash = su.2 ∧
    (finishStep st r su).2.total = (su.1 : ℚ) * r.close + su.2 :=
  ⟨rfl, rfl, rfl⟩

theorem simStep_sig (st : SimState) (r : SignalRow) :
    ((simStep st r).2).sig = r := rfl

theorem stratStep_sig (cap : ℚ) (st : SimState) (r : SignalRow) :
    ((stratStep cap st r).2).sig = r := rfl

theorem simStep_buy (st : SimState) (r : SignalRow) (h : r.position = 1) :
    simStep st r = finishStep st r
      (st.shares + pyInt (st.cash / r.close),
       st.cash - (pyInt (st.cash / r.close) : ℚ) * r.close) := by
  simp [simStep, h]

theorem simStep_sell (st : SimState) (r : SignalRow) (h1 : r.position = -1)
    (h2 : 0 < st.shares) :
    simStep st r = finishStep st r (0, st.cash + (st.shares : ℚ) * r.close) := by
  have hne : r.position ≠ 1 := by rw [h1]; norm_num
  simp [simStep, hne, h1, h2]
  norm_num

theorem simStep_hold (st : SimState) (r : SignalRow) (h1 : r.position ≠ 1)
    (h2 : ¬(r.position = -1 ∧ 0 < st.shares)) :
    simStep st r = finishStep st r (st.shares, st.cash) := by
  simp only [simStep, if_neg h1, if_neg h2]

theorem stratStep_buy (cap : ℚ) (st : SimState) (r : SignalRow)
    (h : r.position = 1) :
    stratStep cap st r = finishStep st r
      (st.shares + ⌊cap / r.close⌋,
       cap - ((⌊cap / r.close⌋ : ℤ) : ℚ) * r.close) := by
  simp [stratStep, h]

theorem stratStep_hold (cap : ℚ) (st : SimState) (r : SignalRow)
    (h1 : r.position ≠ 1) (h2 : r.position ≠ -1) :
    stratStep cap st r = finishStep st r (st.shares, st.cash) := by
  simp only [stratStep, if_neg h1, if_neg h2]

theorem simAux_map_sig : ∀ (rows : List SignalRow) (st : SimState),
    (simAux st rows).map PortfolioRow.sig = rows
  | [], _ => rfl
  | r :: rs, st => by
    simp only [simAux, List.map_cons, simStep_sig, simAux_map_sig rs]

theorem countBuyRows_simAux (rows : List SignalRow) (st : SimState) :
    countBuyRows (simAux st rows) = countBuySignals rows := by
  have h1 : countBuySignals rows =
      countBuySignals ((simAux st rows).map PortfolioRow.sig) := by
    rw [simAux_map_sig]
  rw [h1, countBuySignals, countBuyRows, ← List.countP_eq_length_filter,
    ← List.countP_eq_length_filter, List.countP_map]
  rfl

theorem countSellRows_simAux (rows : List SignalRow) (st : SimState) :
    countSellRows (simAux st rows) = countSellSignals rows := by
  have h1 : countSellSignals rows =
      countSellSignals ((simAux st rows).map PortfolioRow.sig) := by
    rw [simAux_map_sig]
  rw [h1, countSellSignals, countSellRows, ← List.countP_eq_length_filter,
    ← List.countP_eq_length_filter, List.countP_map]
  rfl

theorem maAt_eq_none {w : ℕ} {xs : List ℚ} {i : ℕ}
    (h : ¬(w ≤ i + 1 ∧ i < xs.length)) : maAt w xs i = none := if_neg h

theorem maAt_some_cond {w : ℕ} {xs : List ℚ} {i : ℕ} {q : ℚ}
    (h : maAt w xs i = some q) : w ≤ i + 1 ∧ i < xs.length := by
  unfold maAt at h
  split at h
  · assumption
  · exact absurd h (by simp)

theorem maAt_some_of_cond {w : ℕ} {xs : List ℚ} {i : ℕ}
    (h1 : w ≤ i + 1) (h2 : i < xs.length) :
    maAt w xs i = some (((xs.take (i + 1)).drop (i + 1 - w)).sum / (w : ℚ)) :=
  if_pos ⟨h1, h2⟩

theorem rowAt_eq_none_of_pos_none {prices : List ℚ} {sw lw i : ℕ}
    (h : positionAt prices sw lw i = none) : rowAt prices sw lw i = none := by
  unfold rowAt
  rw [h]
  rcases maAt sw prices i with _ | s <;> rcases maAt lw prices i with _ | l <;> rfl

theorem rowAt_eq_none_of_lma_none {prices : List ℚ} {sw lw i : ℕ}
    (h : maAt lw prices i = none) : rowAt prices sw lw i = none := by
  unfold rowAt
  rw [h]
  rcases maAt sw prices i with _ | s <;>
    rcases positionAt prices sw lw i with _ | p <;> rfl

theorem rowAt_some {prices : List ℚ} {sw lw i : ℕ} {s l p : ℚ}
    (hms : maAt sw prices i = some s) (hml : maAt lw prices i = some l)
    (hpos : positionAt prices sw lw i = some p) :
    rowAt prices sw lw i =
      some ⟨prices.getD i 0, s, l, signalAt prices sw lw i, p⟩ := by
  unfold rowAt
  rw [hms, hml, hpos]

theorem rowAt_some_elim {prices : List ℚ} {sw lw i : ℕ} {r : SignalRow}
    (h : rowAt prices sw lw i = some r) :
    i < prices.length ∧ r.close = prices.getD i 0 := by
  unfold rowAt at h
  split at h
  · rename_i s l p hms hml hpos
    cases h
    exact ⟨(maAt_some_cond hms).2, rfl⟩
  · exact absurd h (by simp)

theorem head_filterMap_range' {α : Type} (f : ℕ → Option α) (v : α) :
    ∀ (len s k : ℕ), s ≤ k → k < s + len →
      (∀ i, s ≤ i → i < k → f i = none) → f k = some v →
      ((List.range' s len).filterMap f).head? = some v := by
  intro len
  induction len with
  | zero =>
    intro s k h1 h2 _ _
    omega
  | succ n ih =>
    intro s k h1 h2 h0 hk
    rw [List.range'_succ]
    by_cases hs : s = k
    · subst hs
      rw [List.filterMap_cons_some hk]
      rfl
    · have hsk : s < k := lt_of_le_of_ne h1 hs
      rw [List.filterMap_cons_none (h0 s le_rfl hsk)]
      exact ih (s + 1) k hsk (by omega) (fun i hi1 hi2 => h0 i (by omega) hi2) hk

theorem head_filterMap_range {α : Type} (f : ℕ → Option α) (v : α)
    (n k : ℕ) (hkn : k < n) (h0 : ∀ i, i < k → f i = none)
    (hk : f k = some v) :
    ((List.range n).filterMap f).head? = some v := by
  rw [List.range_eq_range']
  exact head_filterMap_range' f v n 0 k (Nat.zero_le k) (by omega)
    (fun i _ hi2 => h0 i hi2) hk

/-! Claim theorems. -/

/-- C6: on prices `[100, 102, 101, 105, 108, 104, 110]` with
`short_window = 2` and `long_window = 3`, `generate_signals` returns exactly
5 rows (days 3 through 7), and the first retained row (day 3) has
`short_ma = 101.5`, `long_ma = 101.0` and `signal = 1`. -/
theorem c6_concrete_scenario :
    (generateSignals [100, 102, 101, 105, 108, 104, 110] 2 3).length = 5 ∧
    (generateSignals [100, 102, 101, 105, 108, 104, 110] 2 3).head? =
      some ⟨101, 203 / 2, 101, 1, 1⟩ :=
  ⟨by decide, by decide⟩

/-- C1 counterexample: on the spec's own scenario
(`[100, 102, 101, 105, 108, 104, 110]`, windows 2/3) the first retained row
has `position = 1`, not `0`: the dropped previous row had `signal = 0`
(its long moving average was still NaN), so the `diff` at the first retained
row is its own signal value. -/
theorem c1_first_position_counterexample :
    ((generateSignals [100, 102, 101, 105, 108, 104, 110] 2 3).head?.map
      SignalRow.position) = some 1 ∧ some (1 : ℚ) ≠ some (0 : ℚ) :=
  ⟨by decide, by decide⟩

/-- C1 amended: the first retained row's `position` equals its `signal`
(0 or 1), because the row just before the first retained one always carries
`signal = 0` (its long moving average is undefined, and NaN comparisons
are false); `position = 0` holds there only when the first retained row's
own signal is 0. -/
theorem c1_first_position_amended (prices : List ℚ) (sw lw : ℕ) (r : SignalRow)
    (hsw : 0 < sw) (hswlw : sw < lw) (hlen : lw ≤ prices.length)
    (hhead : (generateSignals prices sw lw).head? = some r) :
    r.position = r.signal := by
  have hlw2 : 2 ≤ lw := by omega
  obtain ⟨s, hms⟩ : ∃ s, maAt sw prices (lw - 1) = some s :=
    ⟨_, maAt_some_of_cond (by omega) (by omega)⟩
  obtain ⟨l, hml⟩ : ∃ l, maAt lw prices (lw - 1) = some l :=
    ⟨_, maAt_some_of_cond (by omega) (by omega)⟩
  have hprev : maAt lw prices (lw - 1 - 1) = none := by
    apply maAt_eq_none
    intro hc
    omega
  have hsigprev : signalAt prices sw lw (lw - 1 - 1) = 0 := by
    unfold signalAt
    rw [hprev]
    rcases maAt sw prices (lw - 1 - 1) with _ | q <;> rfl
  have hpos : positionAt prices sw lw (lw - 1) =
      some (signalAt prices sw lw (lw - 1) - 0) := by
    unfold positionAt
    rw [if_neg (by omega : ¬(lw - 1 = 0)), hsigprev]
  have hnone : ∀ j, j < lw - 1 → rowAt prices sw lw j = none := by
    intro j hj
    rcases Nat.eq_zero_or_pos j with h0 | hj1
    · apply rowAt_eq_none_of_pos_none
      unfold positionAt
      rw [if_pos h0]
    · exact rowAt_eq_none_of_lma_none (maAt_eq_none (by omega))
  have hh : (generateSignals prices sw lw).head? =
      some ⟨prices.getD (lw - 1) 0, s, l, signalAt prices sw lw (lw - 1),
        signalAt prices sw lw (lw - 1) - 0⟩ := by
    unfold generateSignals
    exact head_filterMap_range _ _ _ (lw - 1) (by omega) hnone
      (rowAt_some hms hml hpos)
  rw [hhead] at hh
  cases hh
  simp

/-- C1 witness for the amended claim, at prices `[1, 1, 2, 3]` with windows
1/2, where the first retained row has signal 0 and hence position 0. -/
theorem c1_first_position_witness :
    (generateSignals [(1 : ℚ), 1, 2, 3] 1 2).head? = some ⟨1, 1, 1, 0, 0⟩ ∧
    (⟨1, 1, 1, 0, 0⟩ : SignalRow).position = (⟨1, 1, 1, 0, 0⟩ : SignalRow).signal :=
  ⟨by decide,
   c1_first_position_amended [1, 1, 2, 3] 1 2 ⟨1, 1, 1, 0, 0⟩ (by decide)
     (by decide) (by decide) (by decide)⟩

/-- C2 counterexample: with 2 prices and `long_window = 3` the signal frame
is empty, and `Backtester.run` does NOT return degenerate metrics — its
metrics stage fails on the empty portfolio (`portfolio.index[0]` raises
`IndexError`), modelled by the `none` result. -/
theorem c2_insufficient_data_counterexample :
    runBacktest [100, 100] 2 3 1000 = none := by decide

/-- C2 amended: with fewer price points than `long_window` the SignalSeries
and the PortfolioState sequence are indeed empty, but `_calculate_metrics`
then fails with an index error on the empty portfolio, so the backtest run
raises instead of returning zero-valued metrics. -/
theorem c2_insufficient_data_amended (prices : List ℚ) (sw lw : ℕ) (cap : ℚ)
    (h : prices.length < lw) :
    generateSignals prices sw lw = [] ∧
    simulateTrades (generateSignals prices sw lw) cap = ([], []) ∧
    runBacktest prices sw lw cap = none := by
  have hgen : generateSignals prices sw lw = [] := by
    unfold generateSignals
    rw [List.filterMap_eq_nil_iff]
    intro i hi
    rw [List.mem_range] at hi
    exact rowAt_eq_none_of_lma_none (maAt_eq_none (by omega))
  refine ⟨hgen, ?_, ?_⟩
  · rw [hgen]
    rfl
  · unfold runBacktest
    rw [hgen]
    rfl

/-- C2 witness for the amended claim, at prices `[100, 102]` with windows
2/3 and capital 1000. -/
theorem c2_insufficient_data_witness :
    generateSignals [(100 : ℚ), 102] 2 3 = [] ∧
    simulateTrades (generateSignals [(100 : ℚ), 102] 2 3) 1000 = ([], []) ∧
    runBacktest [(100 : ℚ), 102] 2 3 1000 = none :=
  c2_insufficient_data_amended [100, 102] 2 3 1000 (by decide)

/-- C3 counterexample: constructing the strategy with
`short_window = 5 >= long_window = 2`, and the backtester with negative
capital, both succeed — nothing is rejected. -/
theorem c3_validation_counterexample :
    mkStrategy 5 2 = .ok ⟨5, 2⟩ ∧ mkBacktester (-1) = .ok ⟨-1⟩ :=
  ⟨rfl, rfl⟩

/-- C3 amended: neither constructor validates anything: every window pair
and every initial capital (including `short_window >= long_window`,
non-positive windows and non-positive capital) is accepted silently and
stored as given. -/
theorem c3_validation_amended (sw lw : ℤ) (cap : ℚ) :
    mkStrategy sw lw = .ok ⟨sw, lw⟩ ∧ mkBacktester cap = .ok ⟨cap⟩ :=
  ⟨rfl, rfl⟩

/-- C8 counterexample: on a frame with neither a `close` nor a `price`
column, `generate_signals` does not surface an error — it logs and returns
the copied input unchanged (a normal `ok` return). -/
theorem c8_missing_column_counterexample :
    generateSignalsFrame ⟨none, none⟩ 2 3 = .ok (.unchanged ⟨none, none⟩) :=
  rfl

/-- C8 amended: when the input frame lacks both a `close` and a `price`
column, `generate_signals` logs an error and silently returns the input
frame unchanged, without signal columns; no exception reaches the caller. -/
theorem c8_missing_column_amended (df : Frame) (sw lw : ℕ)
    (hc : df.close = none) (hp : df.price = none) :
    generateSignalsFrame df sw lw = .ok (.unchanged df) := by
  unfold generateSignalsFrame
  rw [hc, hp]

/-- C8 witness for the amended claim at a concrete empty frame. -/
theorem c8_missing_column_witness :
    generateSignalsFrame ⟨none, none⟩ 5 10 = .ok (.unchanged ⟨none, none⟩) :=
  c8_missing_column_amended ⟨none, none⟩ 5 10 rfl rfl

/-- C9: the whole backtest (`Backtester.run`) is a pure function of
`(prices, short_window, long_window, initial_capital)` — it reads no other
state and uses no randomness — so two runs on identical inputs return
identical portfolios and metrics. -/
theorem c9_determinism (prices : List ℚ) (sw lw : ℕ) (cap : ℚ) :
    runBacktest prices sw lw cap = runBacktest prices sw lw cap := rfl

theorem countBuySignals_cons_pos {r : SignalRow} {rs : List SignalRow}
    (h : r.position = 1) :
    countBuySignals (r :: rs) = countBuySignals rs + 1 := by
  simp [countBuySignals, List.filter_cons, h]

theorem countBuySignals_cons_neg {r : SignalRow} {rs : List SignalRow}
    (h : r.position ≠ 1) :
    countBuySignals (r :: rs) = countBuySignals rs := by
  simp [countBuySignals, List.filter_cons, h]

theorem gen_close_pos {prices : List ℚ} {sw lw : ℕ}
    (hp : ∀ p ∈ prices, 0 < p) :
    ∀ r ∈ generateSignals prices sw lw, 0 < r.close := by
  intro r hr
  unfold generateSignals at hr
  rw [List.mem_filterMap] at hr
  obtain ⟨i, _, hrow⟩ := hr
  obtain ⟨hlt, hclose⟩ := rowAt_some_elim hrow
  rw [hclose]
  have hg : prices.getD i 0 = prices.get ⟨i, hlt⟩ := by
    rw [List.getD_eq_getElem?_getD, List.getElem?_eq_getElem hlt]
    rfl
  rw [hg]
  exact hp _ (List.get_mem prices i hlt)

theorem simStep_state_bounds (st : SimState) (r : SignalRow)
    (hc : 0 ≤ st.cash) (hs : 0 ≤ st.shares) (hp : 0 < r.close) :
    ∃ su : ℤ × ℚ, simStep st r = finishStep st r su ∧ 0 ≤ su.1 ∧ 0 ≤ su.2 := by
  by_cases h1 : r.position = 1
  · refine ⟨_, simStep_buy st r h1, ?_, ?_⟩
    · exact add_nonneg hs (pyInt_nonneg (div_nonneg hc hp.le))
    · have hle := pyInt_mul_le hc hp
      simp only
      linarith
  · by_cases h2 : r.position = -1 ∧ 0 < st.shares
    · refine ⟨_, simStep_sell st r h2.1 h2.2, le_refl 0, ?_⟩
      have hsp : (0 : ℚ) ≤ (st.shares : ℚ) * r.close :=
        mul_nonneg (by exact_mod_cast hs) hp.le
      simp only
      linarith
    · exact ⟨_, simStep_hold st r h1 h2, hs, hc⟩

theorem simAux_invariant : ∀ (rows : List SignalRow) (st : SimState),
    0 ≤ st.cash → 0 ≤ st.shares → (∀ r ∈ rows, 0 < r.close) →
    ∀ pr ∈ simAux st rows,
      pr.total = pr.holdings + pr.cash ∧ 0 ≤ pr.cash ∧ 0 ≤ pr.holdings ∧
        0 ≤ pr.total
  | [], st => by
    intro _ _ _ pr hpr
    simp [simAux] at hpr
  | r :: rs, st => by
    intro hc hs hp pr hpr
    have hpr0 : 0 < r.close := hp r (List.mem_cons_self r rs)
    obtain ⟨su, hsu, h1, h2⟩ := simStep_state_bounds st r hc hs hpr0
    simp only [simAux] at hpr
    rw [hsu] at hpr
    obtain ⟨hh, hcash, htot⟩ := finishStep_row_fields st r su
    rcases List.mem_cons.mp hpr with rfl | hmem
    · have hhold : 0 ≤ (finishStep st r su).2.holdings := by
        rw [hh]
        exact mul_nonneg (by exact_mod_cast h1) hpr0.le
      refine ⟨?_, ?_, hhold, ?_⟩
      · rw [htot, hh, hcash]
      · rw [hcash]
        exact h2
      · rw [htot]
        exact add_nonneg (hh ▸ hhold) h2
    · exact simAux_invariant rs (finishStep st r su).1
        (by rw [finishStep_cash]; exact h2)
        (by rw [finishStep_shares]; exact h1)
        (fun x hx => hp x (List.mem_cons_of_mem _ hx)) pr hmem

/-- C5: every portfolio row produced by `_simulate_trades` from a generated
signal series over positive prices, with positive initial capital, satisfies
`total = holdings + cash` exactly, and `cash`, `holdings` (shares held times
price, shares staying non-negative) and `total` are never negative. -/
theorem c5_conservation (prices : List ℚ) (sw lw : ℕ) (cap : ℚ)
    (hcap : 0 < cap) (hp : ∀ p ∈ prices, 0 < p) :
    ∀ pr ∈ (simulateTrades (generateSignals prices sw lw) cap).1,
      pr.total = pr.holdings + pr.cash ∧ 0 ≤ pr.cash ∧ 0 ≤ pr.holdings ∧
        0 ≤ pr.total := by
  intro pr hpr
  exact simAux_invariant (generateSignals prices sw lw) ⟨0, cap, none⟩
    hcap.le (le_refl 0) (gen_close_pos hp) pr hpr

/-- C5 witness: the first portfolio row of the concrete 7-day run (a buy of
9 shares at price 101 out of capital 1000) satisfies the invariants. -/
theorem c5_conservation_witness :
    (⟨⟨101, 203 / 2, 101, 1, 1⟩, 909, 91, 1000, 0⟩ : PortfolioRow) ∈
      (simulateTrades
        (generateSignals [(100 : ℚ), 102, 101, 105, 108, 104, 110] 2 3)
        1000).1 ∧
    ((⟨⟨101, 203 / 2, 101, 1, 1⟩, 909, 91, 1000, 0⟩ : PortfolioRow).total =
        (⟨⟨101, 203 / 2, 101, 1, 1⟩, 909, 91, 1000, 0⟩ : PortfolioRow).holdings +
          (⟨⟨101, 203 / 2, 101, 1, 1⟩, 909, 91, 1000, 0⟩ : PortfolioRow).cash ∧
      0 ≤ (⟨⟨101, 203 / 2, 101, 1, 1⟩, 909, 91, 1000, 0⟩ : PortfolioRow).cash ∧
      0 ≤ (⟨⟨101, 203 / 2, 101, 1, 1⟩, 909, 91, 1000, 0⟩ : PortfolioRow).holdings ∧
      0 ≤ (⟨⟨101, 203 / 2, 101, 1, 1⟩, 909, 91, 1000, 0⟩ : PortfolioRow).total) := by
  have hm : (⟨⟨101, 203 / 2, 101, 1, 1⟩, 909, 91, 1000, 0⟩ : PortfolioRow) ∈
      (simulateTrades
        (generateSignals [(100 : ℚ), 102, 101, 105, 108, 104, 110] 2 3)
        1000).1 := by decide
  exact ⟨hm, c5_conservation [100, 102, 101, 105, 108, 104, 110] 2 3 1000
    (by norm_num) (by decide) _ hm⟩

theorem runBacktest_some_elim (prices : List ℚ) (sw lw : ℕ) (cap : ℚ)
    (res : SimResult) (h : runBacktest prices sw lw cap = some res) :
    res.portfolio = simAux ⟨0, cap, none⟩ (generateSignals prices sw lw) ∧
    res.metrics.buySignals = countBuyRows res.portfolio ∧
    res.metrics.sellSignals = countSellRows res.portfolio ∧
    res.metrics.numTrades =
      countBuyRows res.portfolio + countSellRows res.portfolio ∧
    res.metrics.volatilitySq =
      annualizeSq (stdSqOpt (res.portfolio.map PortfolioRow.returns)) := by
  unfold runBacktest simulateTrades at h
  rcases hrows : generateSignals prices sw lw with _ | ⟨r0, rrest⟩ <;>
    rw [hrows] at h
  · simp [simAux, calculateMetrics] at h
  · simp only [simAux, calculateMetrics, Option.map_some',
      Option.some.injEq] at h
    subst h
    exact ⟨rfl, rfl, rfl, rfl, rfl⟩

/-- C4 counterexample: on the run over `[1, 1, 2, 3]` (windows 1/2, capital
1000) the daily returns are `[0, 0, 1/2]`; the code reports a squared
annualised volatility of 21 (sample stdev over ALL three returns, the first
day's 0 included), while the claimed formula (excluding the first day's
placeholder) gives 63/2. -/
theorem c4_volatility_counterexample :
    runReturns [(1 : ℚ), 1, 2, 3] 1 2 1000 = some [0, 0, 1 / 2] ∧
    runVolatilitySq [(1 : ℚ), 1, 2, 3] 1 2 1000 = some (some 21) ∧
    specVolatilitySq [0, 0, 1 / 2] = 63 / 2 ∧
    (21 : ℚ) ≠ 63 / 2 :=
  ⟨by decide, by decide, by decide, by decide⟩

/-- C4 amended: the reported volatility is the sample standard deviation of
ALL daily returns — the first day's placeholder 0 included, since the
`returns` column is initialised to 0.0 and never NaN, so `dropna` removes
nothing — annualised by `sqrt(252)`; and with fewer than 2 portfolio rows
`std()` yields NaN (not 0).  Stated through the square of the volatility. -/
theorem c4_volatility_amended (prices : List ℚ) (sw lw : ℕ) (cap : ℚ)
    (res : SimResult) (h : runBacktest prices sw lw cap = some res) :
    res.metrics.volatilitySq =
      annualizeSq (stdSqOpt (res.portfolio.map PortfolioRow.returns)) :=
  (runBacktest_some_elim prices sw lw cap res h).2.2.2.2

/-- C4 witness for the amended claim, on the concrete `[1, 1, 2, 3]` run. -/
theorem c4_volatility_witness :
    runBacktest [(1 : ℚ), 1, 2, 3] 1 2 1000 = some smallRunResult ∧
    smallRunResult.metrics.volatilitySq =
      annualizeSq (stdSqOpt (smallRunResult.portfolio.map PortfolioRow.returns)) := by
  have h : runBacktest [(1 : ℚ), 1, 2, 3] 1 2 1000 = some smallRunResult := by
    decide
  exact ⟨h, c4_volatility_amended [1, 1, 2, 3] 1 2 1000 smallRunResult h⟩

/-- C7: in every completed run, `buy_signals` is the count of signal rows
with `position = +1` and `sell_signals` the count with `position = -1` —
counted from the signal series itself, independent of whether the trade
executed — and `num_trades` is their sum. -/
theorem c7_trade_counts (prices : List ℚ) (sw lw : ℕ) (cap : ℚ)
    (res : SimResult) (h : runBacktest prices sw lw cap = some res) :
    res.metrics.buySignals = countBuySignals (generateSignals prices sw lw) ∧
    res.metrics.sellSignals = countSellSignals (generateSignals prices sw lw) ∧
    res.metrics.numTrades =
      res.metrics.buySignals + res.metrics.sellSignals := by
  obtain ⟨hpf, hb, hs, hn, _⟩ := runBacktest_some_elim prices sw lw cap res h
  refine ⟨?_, ?_, ?_⟩
  · rw [hb, hpf, countBuyRows_simAux]
  · rw [hs, hpf, countSellRows_simAux]
  · rw [hn, hb, hs]

/-- C7 witness on the concrete `[1, 1, 2, 3]` run: one buy signal, no sell
signal, one trade. -/
theorem c7_trade_counts_witness :
    runBacktest [(1 : ℚ), 1, 2, 3] 1 2 1000 = some smallRunResult ∧
    smallRunResult.metrics.buySignals =
      countBuySignals (generateSignals [(1 : ℚ), 1, 2, 3] 1 2) ∧
    smallRunResult.metrics.sellSignals =
      countSellSignals (generateSignals [(1 : ℚ), 1, 2, 3] 1 2) ∧
    smallRunResult.metrics.numTrades =
      smallRunResult.metrics.buySignals + smallRunResult.metrics.sellSignals := by
  have h : runBacktest [(1 : ℚ), 1, 2, 3] 1 2 1000 = some smallRunResult := by
    decide
  exact ⟨h, c7_trade_counts [1, 1, 2, 3] 1 2 1000 smallRunResult h⟩

theorem step_agree_buy (cap : ℚ) (sh : ℤ) (pt : Option ℚ) (r : SignalRow)
    (h : r.position = 1) (hcap : 0 ≤ cap) (hp : 0 < r.close) :
    stratStep cap ⟨sh, cap, pt⟩ r = simStep ⟨sh, cap, pt⟩ r := by
  rw [simStep_buy _ _ h, stratStep_buy _ _ _ h]
  dsimp only
  rw [pyInt_of_nonneg (div_nonneg hcap hp.le)]

theorem step_agree_other (cap : ℚ) (st : SimState) (r : SignalRow)
    (h1 : r.position ≠ 1) (h2 : r.position ≠ -1) :
    stratStep cap st r = simStep st r := by
  rw [stratStep_hold _ _ _ h1 h2, simStep_hold _ _ h1 (fun hc => h2 hc.1)]

theorem stratAux_eq_simAux : ∀ (rows : List SignalRow) (sh : ℤ) (c : ℚ)
    (pt : Option ℚ) (cap : ℚ), 0 ≤ cap → (∀ r ∈ rows, 0 < r.close) →
    (∀ r ∈ rows, r.position ≠ -1) → countBuySignals rows ≤ 1 →
    (1 ≤ countBuySignals rows → c = cap) →
    stratAux cap ⟨sh, c, pt⟩ rows = simAux ⟨sh, c, pt⟩ rows
  | [], sh, c, pt, cap => by
    intros
    rfl
  | r :: rs, sh, c, pt, cap => by
    intro hcap hp hns hcount hbuy
    have hpr : 0 < r.close := hp r (List.mem_cons_self r rs)
    have hnr : r.position ≠ -1 := hns r (List.mem_cons_self r rs)
    by_cases h1 : r.position = 1
    · have hcnt : countBuySignals (r :: rs) = countBuySignals rs + 1 :=
        countBuySignals_cons_pos h1
      have hc : c = cap := hbuy (by omega)
      subst hc
      simp only [stratAux, simAux]
      rw [step_agree_buy c sh pt r h1 hcap hpr]
      congr 1
      exact stratAux_eq_simAux rs _ _ _ c hcap
        (fun x hx => hp x (List.mem_cons_of_mem _ hx))
        (fun x hx => hns x (List.mem_cons_of_mem _ hx))
        (by omega) (fun hx => absurd hx (by omega))
    · have hcnt : countBuySignals (r :: rs) = countBuySignals rs :=
        countBuySignals_cons_neg h1
      simp only [stratAux, simAux]
      rw [step_agree_other cap ⟨sh, c, pt⟩ r h1 hnr]
      have hst : (simStep ⟨sh, c, pt⟩ r).1 =
          ⟨sh, c, some ((sh : ℚ) * r.close + c)⟩ := by
        rw [simStep_hold _ _ h1 (fun hc => hnr hc.1)]
        rfl
      rw [hst]
      congr 1
      exact stratAux_eq_simAux rs sh c (some ((sh : ℚ) * r.close + c)) cap hcap
        (fun x hx => hp x (List.mem_cons_of_mem _ hx))
        (fun x hx => hns x (List.mem_cons_of_mem _ hx))
        (by omega)
        (fun hx => hbuy (by omega))

/-- C10 counterexample: on the spec's 7-day scenario the two loops diverge
at the sell (day 7): `MovingAverageCrossoverStrategy.backtest` credits the
sale proceeds against the *initial* capital (the un-updated current-row
cash cell), ending at total 1990, while the Backtester simulation adds them
to the running cash and ends at 1081. -/
theorem c10_loops_counterexample :
    lastTotal (strategyBacktest
      (generateSignals [(100 : ℚ), 102, 101, 105, 108, 104, 110] 2 3) 1000).1
      = 1990 ∧
    lastTotal (simulateTrades
      (generateSignals [(100 : ℚ), 102, 101, 105, 108, 104, 110] 2 3) 1000).1
      = 1081 ∧
    (1990 : ℚ) ≠ 1081 :=
  ⟨by decide, by decide, by decide⟩

/-- C10 amended: the two simulation loops agree on any signal series with
no sell trigger (no row with `position = -1`) and at most one buy trigger —
which every generated series without a sell satisfies, since `position` is
the diff of a 0/1 signal.  With a sell they diverge, because the strategy
loop reads the un-updated current-row cash (the initial capital) in its
buy/sell branches and omits the shares-held guard on sells. -/
theorem c10_loops_amended (rows : List SignalRow) (cap : ℚ) (hcap : 0 ≤ cap)
    (hp : ∀ r ∈ rows, 0 < r.close) (hns : ∀ r ∈ rows, r.position ≠ -1)
    (hbuy : countBuySignals rows ≤ 1) :
    strategyBacktest rows cap = simulateTrades rows cap := by
  unfold strategyBacktest simulateTrades
  rw [stratAux_eq_simAux rows 0 cap none cap hcap hp hns hbuy (fun _ => rfl)]

/-- C10 witness for the amended claim: the buy-only `[1, 1, 2, 3]` signal
series, on which both loops produce identical portfolios. -/
theorem c10_loops_witness :
    (0 : ℚ) ≤ 1000 ∧
    strategyBacktest (generateSignals [(1 : ℚ), 1, 2, 3] 1 2) 1000 =
      simulateTrades (generateSignals [(1 : ℚ), 1, 2, 3] 1 2) 1000 :=
  ⟨by norm_num,
   c10_loops_amended _ 1000 (by norm_num) (by decide) (by decide) (by decide)⟩

end Trading
